import Mathlib

/-!
Verification of the upm registry-construction and command-resolution core.

The definitions below are a shallow embedding of the Rust sources:
  * upm_lib/src/lib.rs  -- the current library (PackageManager, Version,
    get_managers, read_config_dirs);
  * upm-lib/src/lib.rs  -- an earlier copy of the library, kept where its
    behaviour differs (exists, set_semantic, make_command);
  * src/managers.rs     -- the legacy prototype inside the binary, kept for
    its own Version::set_semantic.

Conventions of the embedding:
  * Rust panics are modelled as `none` of an outer `Option`;
  * `Result<T, failure::Error>` is `Except String T`;
  * `PathBuf` is a `String` (the source converts it with
    as_os_str().to_str().unwrap() before using it);
  * process spawning is a parameter (an oracle `Cmd -> Option Child`, or
    `Cmd -> Option Bool` for a blocking status call), `none` meaning the OS
    failed to launch the process;
  * the filesystem seen by the loader is explicit data: a `Directory` is its
    path plus `Option` (none = read_dir failed) of a list of entries in
    enumeration order, an entry being a file name plus `Option` (none =
    unreadable or unparseable) of the parsed TOML table, tables modelled as
    string-to-string association lists (a non-string TOML value makes the
    source panic at as_str().unwrap(); no claim touches that);
  * the regex character class \d is Unicode-aware in the regex crate (the
    general category Nd, decimal digits of every script), both bare and
    inside [\dA-Za-z-]; it is modelled by isNd below, the ASCII digits plus
    the listed non-ASCII Nd ranges of the Unicode character database (the
    Unicode era of the regex crate this code builds with; a later Unicode
    version only adds further ranges to the same list). A-Z and a-z inside
    the class are the ASCII letters, as in the regex.
-/

namespace UPM

/-- Is the second list a prefix-extension of the first, character for
character. Used to model Rust str::starts_with / ends_with. -/
def leadsList : List Char → List Char → Bool
  | [], _ => true
  | _ :: _, [] => false
  | a :: as, b :: bs => a == b && leadsList as bs

/-- Rust str::starts_with on strings. -/
def leadsWith (pre s : String) : Bool := leadsList pre.data s.data

/-- Rust str::ends_with on strings. -/
def endsIn (suf s : String) : Bool := leadsList suf.data.reverse s.data.reverse

/-- Rust str::split_whitespace, one pass with an accumulator holding the
current token reversed: maximal runs of non-whitespace characters, no empty
tokens. (Rust uses the Unicode White_Space property; the model uses
Char.isWhitespace, which covers the ASCII whitespace.) -/
def splitWsAux : List Char → List Char → List (List Char)
  | [], cur => if cur.isEmpty then [] else [cur.reverse]
  | c :: r, cur =>
    if c.isWhitespace then
      if cur.isEmpty then splitWsAux r [] else cur.reverse :: splitWsAux r []
    else splitWsAux r (c :: cur)

/-- Rust str::split_whitespace collected to a list of strings. -/
def split_whitespace (s : String) : List String :=
  (splitWsAux s.data []).map (fun l => ⟨l⟩)

/-! ## The semantic-version regex

upm_lib/src/lib.rs, Version::get_semantic_regex. The pattern, anchored on
both sides, is three digit groups separated by dots, an optional dash-led
prerelease and an optional plus-led build part, prerelease and build being
dot-separated nonempty runs of digits, letters and dashes. The functions
below are a deterministic matcher for it; determinism is exact because a
digit group is followed by a character that is not a digit, and a label run
is followed by a character that is neither a label character nor a dot, so
the backtracking of the regex engine never finds an alternative parse. -/

/-- The non-ASCII ranges of the Unicode general category Nd (decimal
digits), as (first, last) code points: Arabic-Indic through Adlam. Together
with the ASCII digits these are the characters the regex class \d matches. -/
def ndRanges : List (Nat × Nat) :=
  [(0x660, 0x669), (0x6F0, 0x6F9), (0x7C0, 0x7C9), (0x966, 0x96F),
   (0x9E6, 0x9EF), (0xA66, 0xA6F), (0xAE6, 0xAEF), (0xB66, 0xB6F),
   (0xBE6, 0xBEF), (0xC66, 0xC6F), (0xCE6, 0xCEF), (0xD66, 0xD6F),
   (0xDE6, 0xDEF), (0xE50, 0xE59), (0xED0, 0xED9), (0xF20, 0xF29),
   (0x1040, 0x1049), (0x1090, 0x1099), (0x17E0, 0x17E9), (0x1810, 0x1819),
   (0x1946, 0x194F), (0x19D0, 0x19D9), (0x1A80, 0x1A89), (0x1A90, 0x1A99),
   (0x1B50, 0x1B59), (0x1BB0, 0x1BB9), (0x1C40, 0x1C49), (0x1C50, 0x1C59),
   (0xA620, 0xA629), (0xA8D0, 0xA8D9), (0xA900, 0xA909), (0xA9D0, 0xA9D9),
   (0xA9F0, 0xA9F9), (0xAA50, 0xAA59), (0xABF0, 0xABF9), (0xFF10, 0xFF19),
   (0x104A0, 0x104A9), (0x11066, 0x1106F), (0x110F0, 0x110F9),
   (0x11136, 0x1113F), (0x111D0, 0x111D9), (0x112F0, 0x112F9),
   (0x11450, 0x11459), (0x114D0, 0x114D9), (0x11650, 0x11659),
   (0x116C0, 0x116C9), (0x11730, 0x11739), (0x118E0, 0x118E9),
   (0x11C50, 0x11C59), (0x11D50, 0x11D59), (0x16A60, 0x16A69),
   (0x16B50, 0x16B59), (0x1D7CE, 0x1D7FF), (0x1E950, 0x1E959)]

/-- The regex class \d: a Unicode decimal digit (general category Nd) — an
ASCII digit or a code point in one of the non-ASCII Nd ranges. -/
def isNd (c : Char) : Bool :=
  c.isDigit || ndRanges.any (fun r => r.1 ≤ c.toNat && c.toNat ≤ r.2)

/-- The regex character class of one prerelease or build character,
[\dA-Za-z-]: a Unicode decimal digit, an ASCII letter or a dash. -/
def labelChar (c : Char) : Bool :=
  isNd c || c.isUpper || c.isLower || c == '-'

/-- Maximal leading run of \d characters and the remainder. -/
def takeDigits : List Char → List Char × List Char
  | [] => ([], [])
  | c :: r =>
    if isNd c then
      let p := takeDigits r
      (c :: p.1, p.2)
    else ([], c :: r)

/-- Scan a dot-separated sequence of nonempty label-character runs.
`needChar` records that the current run has no character yet. Returns the
unconsumed remainder, or `none` when an empty run is forced. -/
def scanLabels : List Char → Bool → Option (List Char)
  | [], needChar => if needChar then none else some []
  | c :: r, needChar =>
    if labelChar c then scanLabels r false
    else if c == '.' then
      if needChar then none else scanLabels r true
    else if needChar then none else some (c :: r)

/-- Does a label sequence starting here consume the whole remainder. -/
def labelsToEnd (l : List Char) : Bool :=
  match scanLabels l true with
  | some [] => true
  | _ => false

/-- The three core capture groups (their digit lists) and the remainder
after the patch group; `none` when the core does not match. -/
def parseCore (s : List Char) : Option (List Char × List Char × List Char × List Char) :=
  match takeDigits s with
  | (a, r1) =>
    if a.isEmpty then none
    else
      match r1 with
      | [] => none
      | c1 :: r2 =>
        if c1 == '.' then
          match takeDigits r2 with
          | (b, r3) =>
            if b.isEmpty then none
            else
              match r3 with
              | [] => none
              | c2 :: r4 =>
                if c2 == '.' then
                  match takeDigits r4 with
                  | (c, r5) => if c.isEmpty then none else some (a, b, c, r5)
                else none
        else none

/-- The optional prerelease and build parts followed by the end anchor. -/
def parseRest : List Char → Bool
  | [] => true
  | c :: r =>
    if c == '-' then
      match scanLabels r true with
      | some [] => true
      | some (c2 :: r2) => c2 == '+' && labelsToEnd r2
      | none => false
    else if c == '+' then labelsToEnd r
    else false

/-- upm_lib Version::is_semantic: does the representation match the
semantic-version regex. -/
def is_semantic (s : String) : Bool :=
  match parseCore s.data with
  | some (_, _, _, rest) => parseRest rest
  | none => false

/-! ## The Version struct -/

/-- upm_lib Version: a raw representation string and the semantic flag.
The Rust fields are private; every constructor of the struct keeps the
invariant that the flag is true only when is_semantic holds. -/
structure Version where
  representation : String
  semantic : Bool
  deriving Repr, DecidableEq

/-- upm_lib Version::from_str. -/
def Version.from_str (representation : String) : Version :=
  { representation := representation, semantic := is_semantic representation }

/-- Byte spans of the first three capture groups of the regex on a string,
as (start, end) character offsets, `none` when the string does not have a
matching core. -/
def coreSpans (s : String) : Option ((Nat × Nat) × (Nat × Nat) × (Nat × Nat)) :=
  match parseCore s.data with
  | some (a, b, c, _) =>
    some ((0, a.length),
          (a.length + 1, a.length + 1 + b.length),
          (a.length + b.length + 2, a.length + b.length + 2 + c.length))
  | none => none

/-- Equality of two regex Match values as the regex crate derives it: the
Match struct holds the WHOLE haystack string plus the start and end of the
matched span, and the derived PartialEq compares all three fields. -/
def matchEq (s1 : String) (sp1 : Nat × Nat) (s2 : String) (sp2 : Nat × Nat) : Bool :=
  s1 == s2 && sp1.1 == sp2.1 && sp1.2 == sp2.2

/-- upm_lib impl PartialEq for Version. Differing semantic flags give false;
two semantic versions compare capture groups 1..3 of the regex on their
representations as Match values (see matchEq); otherwise the raw strings are
compared. The outer `none` models the panic of captures(..).unwrap() when a
flagged-semantic representation does not actually match (unreachable under
the struct invariant). -/
def versionEq (v1 v2 : Version) : Option Bool :=
  if v1.semantic != v2.semantic then some false
  else if v1.semantic && v2.semantic then
    match coreSpans v1.representation, coreSpans v2.representation with
    | some (g1, g2, g3), some (h1, h2, h3) =>
      some (matchEq v1.representation g1 v2.representation h1 &&
            matchEq v1.representation g2 v2.representation h2 &&
            matchEq v1.representation g3 v2.representation h3)
    | _, _ => none
  else some (v1.representation == v2.representation)

/-- upm_lib Version::set_semantic: Err (a failure::Error with a fixed
message) when forcing true on a representation that fails is_semantic,
otherwise Ok with only the flag changed. The &mut self method is modelled by
returning the new state. -/
def set_semantic (v : Version) (val : Bool) : Except String Version :=
  if val && !(is_semantic v.representation) then
    Except.error ("Version does not match semantic structure")
  else Except.ok { v with semantic := val }

/-- upm-lib (earlier copy) Version::set_semantic: returns false instead of
an error, leaving the version unchanged; otherwise sets the flag. -/
def set_semantic_old (v : Version) (val : Bool) : Bool × Version :=
  if val && !(is_semantic v.representation) then (false, v)
  else (true, { v with semantic := val })

/-- src/managers.rs Version::set_semantic: no validation at all; the flag is
set to val unconditionally. (The Rust method also takes self by value, so
the mutation happens on a moved copy that is immediately dropped and the
Version of the caller is untouched; modelled as the value the body
computes.) -/
def managers_set_semantic (v : Version) (val : Bool) : Version :=
  { v with semantic := val }

/-- Is an Except a success. -/
def exceptIsOk {α β : Type} : Except α β → Bool
  | Except.ok _ => true
  | Except.error _ => false

/-! ## The PackageManager struct and command resolution -/

/-- upm_lib PackageManager. config_dir is the PathBuf as a string. -/
structure PackageManager where
  name : String
  version : String
  config_dir : String
  install : Option String
  install_local : Option String
  remove : Option String
  remove_local : Option String
  search : Option String
  deriving Repr, DecidableEq

/-- A resolved process specification: program plus fixed arguments. -/
structure Cmd where
  program : String
  args : List String
  deriving Repr, DecidableEq

/-- An abstract process handle (std::process::Child). -/
structure Child where
  id : Nat
  deriving Repr, DecidableEq

/-- The match at the top of upm_lib PackageManager::make_command: outer
`none` is the panic arm for a name that is none of the five listed slots
(note: the search field has no arm, so the name search panics too); inner
`none` is a known slot whose Option field is None. -/
def slotTemplate (pm : PackageManager) (name : String) : Option (Option String) :=
  match name with
  | "version" => some (some pm.version)
  | "install" => some pm.install
  | "install_local" => some pm.install_local
  | "remove" => some pm.remove
  | "remove_local" => some pm.remove_local
  | _ => none

/-- upm_lib PackageManager::fix_relative_path: a template starting with the
two characters dot slash is textually appended to config_dir, with no
separator and no normalization; any other template is returned verbatim. -/
def fix_relative_path (config_dir : String) (command : String) : String :=
  if leadsWith ("./") command then config_dir ++ command else command

/-- upm_lib PackageManager::make_command. Outer `none` models its panics:
the unknown-name panic of the slot match and the unwrap of nth(0) on a
template with no whitespace token. `some none` is the Rust return value
None (slot known, not configured). The resolved template is tokenized on
whitespace into the program and the fixed arguments. -/
def make_command (pm : PackageManager) (name : String) : Option (Option Cmd) :=
  match slotTemplate pm name with
  | none => none
  | some none => some none
  | some (some s) =>
    match split_whitespace (fix_relative_path pm.config_dir s) with
    | [] => none
    | p :: rest => some (some ⟨p, rest⟩)

/-- upm_lib PackageManager::run_command, parameterized by the OS spawn
facility. The unwrap of the make_command result turns the unconfigured-slot
None into a panic (`none`); a spawn failure is the bail arm, an Err with a
fixed could-not-execute message; caller arguments are whitespace-tokenized
and appended after the fixed ones. -/
def run_command (spawn : Cmd → Option Child) (pm : PackageManager)
    (name args : String) : Option (Except String Child) :=
  match make_command pm name with
  | none => none
  | some none => none
  | some (some c) =>
    match spawn ⟨c.program, c.args ++ split_whitespace args⟩ with
    | some child => some (Except.ok child)
    | none => some (Except.error ("Could not execute command"))

/-- upm_lib PackageManager::exists (named existsCheck here: exists is a Lean
keyword), parameterized by the blocking status call: `status c = none`
models Err from Command::status (the launch failed), `some b` an exit with
success flag b. The source unwraps make_command and calls
.status().expect(..): both are panics, the outer `none`. -/
def existsCheck (status : Cmd → Option Bool) (pm : PackageManager) : Option Bool :=
  match make_command pm ("version") with
  | none => none
  | some none => none
  | some (some c) =>
    match status c with
    | some b => some b
    | none => none

/-- upm-lib (earlier copy) make_command: no fix_relative_path, returns the
Command directly; its panics (unknown name, unwrap of an unconfigured slot,
nth(0) on an empty template) are the `none`. -/
def make_command_old (pm : PackageManager) (name : String) : Option Cmd :=
  match slotTemplate pm name with
  | none => none
  | some none => none
  | some (some s) =>
    match split_whitespace s with
    | [] => none
    | p :: rest => some ⟨p, rest⟩

/-- upm-lib (earlier copy) exists: a launch failure is caught and mapped to
false rather than panicking. -/
def existsCheckOld (status : Cmd → Option Bool) (pm : PackageManager) : Option Bool :=
  match make_command_old pm ("version") with
  | none => none
  | some c =>
    match status c with
    | some b => some b
    | none => some false

/-- upm_lib impl PartialEq for PackageManager: name only. -/
def pmEq (a b : PackageManager) : Bool := a.name == b.name

/-- upm_lib impl Ord for PackageManager: name only. -/
def pmCmp (a b : PackageManager) : Ordering := compare a.name b.name

/-- upm_lib impl Hash for PackageManager: only the name is fed to the
hasher, modelled as an arbitrary string hash function. -/
def pmHash (h : String → Nat) (pm : PackageManager) : Nat := h pm.name

/-! ## The registry loader -/

/-- Rust Path::file_stem on a plain file name: the portion before the last
dot; the whole name when there is no dot or when the only dot leads the
name (a hidden file). -/
def fileStemList (l : List Char) : List Char :=
  match l.reverse.dropWhile (fun c => c != '.') with
  | [] => l
  | _ :: rest => if rest.isEmpty then l else rest.reverse

/-- Rust Path::file_stem as the loader uses it. -/
def fileStem (s : String) : String := ⟨fileStemList s.data⟩

/-- upm_lib ManagerSpecifier. The HashSet of names is a list. -/
inductive ManagerSpecifier where
  | excludes (s : List String)
  | includes (s : List String)
  | empty
  deriving Repr

/-- Does a file stem pass the specifier: Excludes skips members, Includes
skips non-members, Empty skips nothing. -/
def passes (names : ManagerSpecifier) (stem : String) : Bool :=
  match names with
  | ManagerSpecifier.excludes set => !(set.contains stem)
  | ManagerSpecifier.includes set => set.contains stem
  | ManagerSpecifier.empty => true

/-- One directory entry: its file name and `Option` of the parsed TOML
table (none = File::open or the TOML parse fails). -/
structure DirEntry where
  fileName : String
  content : Option (List (String × String))
  deriving Repr, DecidableEq

/-- A configuration directory: its path and `Option` of its entries in
enumeration order (none = read_dir fails). -/
structure Directory where
  path : String
  entries : Option (List DirEntry)
  deriving Repr, DecidableEq

/-- toml::Value::get on the modelled table: the first binding of the key. -/
def lookupKey (t : List (String × String)) (k : String) : Option String :=
  (t.find? (fun p => p.1 == k)).map (fun p => p.2)

/-- upm_lib PackageManager::from_file for a file inside dirPath: an
unreadable or unparseable file is an error, a missing version key is the
bail with the missing-version message, otherwise the descriptor is built
with name = the file stem, config_dir = the parent directory, and the five
optional templates looked up independently. -/
def from_file (dirPath : String) (e : DirEntry) : Except String PackageManager :=
  match e.content with
  | none => Except.error ("could not read or parse the file")
  | some t =>
    match lookupKey t ("version") with
    | none => Except.error ("Package manager version command not provided in config")
    | some v =>
      Except.ok
        { name := fileStem e.fileName
          version := v
          config_dir := dirPath
          install := lookupKey t ("install")
          install_local := lookupKey t ("install_local")
          remove := lookupKey t ("remove")
          remove_local := lookupKey t ("remove_local")
          search := lookupKey t ("search") }

/-- The entry loop of upm_lib get_managers: keep entries whose file name
ends in the TOML suffix, whose stem passes the specifier, and whose load
succeeds; a load error is swallowed and the entry skipped. -/
def scanEntries (dirPath : String) (names : ManagerSpecifier) :
    List DirEntry → List PackageManager
  | [] => []
  | e :: rest =>
    if endsIn (".toml") e.fileName then
      if passes names (fileStem e.fileName) then
        match from_file dirPath e with
        | Except.ok man => man :: scanEntries dirPath names rest
        | Except.error _ => scanEntries dirPath names rest
      else scanEntries dirPath names rest
    else scanEntries dirPath names rest

/-- The list upm_lib get_managers builds: an unenumerable directory is
silently skipped (the if-let Ok around read_dir), yielding the empty list. -/
def get_managers_list (d : Directory) (names : ManagerSpecifier) : List PackageManager :=
  match d.entries with
  | none => []
  | some es => scanEntries d.path names es

/-- upm_lib get_managers: the function ends with Ok(result) on every path,
so the Err case of its Result type is never produced. -/
def get_managers (d : Directory) (names : ManagerSpecifier) :
    Except String (List PackageManager) :=
  Except.ok (get_managers_list d names)

/-- The HashSet insertion of read_config_dirs: descriptors compare and hash
by name only, so a manager is appended only when no already-kept manager
has its name. The set is modelled as a list in insertion order; HashSet
iteration order is unspecified in the source, and the theorems below state
only keyed, order-independent facts. -/
def insertNew (acc : List PackageManager) (m : PackageManager) : List PackageManager :=
  if acc.any (fun x => pmEq x m) then acc else acc ++ [m]

/-- upm_lib read_config_dirs: directories in precedence order, highest
first; the managers of each directory are inserted if absent. `none` models the
panic arm on an Err from get_managers (dead code, since get_managers always
returns Ok). -/
def read_config_dirs (dirs : List Directory) (exceptions : ManagerSpecifier) :
    Option (List PackageManager) :=
  dirs.foldl
    (fun acc d =>
      match acc with
      | none => none
      | some r =>
        match get_managers d exceptions with
        | Except.ok tmp => some (tmp.foldl insertNew r)
        | Except.error _ => none)
    (some [])

/-- All descriptors the directories yield, in precedence order. -/
def allScanned (dirs : List Directory) (ex : ManagerSpecifier) : List PackageManager :=
  (dirs.map (fun d => get_managers_list d ex)).flatten

/-! ## The language of the regex, and the grammar as the spec states it

The regex language is described as a decomposition: MAJOR.MINOR.PATCH with
an optional dash-led prerelease part and an optional plus-led build part,
the three core groups nonempty \d runs and the prerelease and build parts
nonempty dot-separated runs of [\dA-Za-z-] characters, with \d the
Unicode-aware class isNd, exactly as the regex engine matches it.

The grammar of the spec is the same shape with the classes the spec words
give for SemVer 2.0.0: ASCII digit cores and ASCII
alphanumeric-or-hyphen labels. The two differ precisely at non-ASCII
Unicode decimal digits, which the regex accepts and the spec grammar does
not. (Strict SemVer 2.0.0 additionally forbids leading zeros in numeric
identifiers; every strict SemVer 2.0.0 string satisfies the spec grammar.) -/

/-- A nonempty \d run: the content of one core capture group. -/
def digitsStr (l : List Char) : Bool := !l.isEmpty && l.all isNd

/-- A nonempty run of label characters: one prerelease or build token. -/
def labelTok (l : List Char) : Bool := !l.isEmpty && l.all labelChar

/-- A nonempty token sequence whose members are all label tokens. -/
def labelSeq (ps : List (List Char)) : Bool := !ps.isEmpty && ps.all labelTok

/-- The rendering of the tokens after the first: a dot before each. -/
def renderTail (ps : List (List Char)) : List Char :=
  (ps.map (fun q => '.' :: q)).flatten

/-- The rendering of a dot-separated token sequence. -/
def renderLabels : List (List Char) → List Char
  | [] => []
  | t :: rest => t ++ renderTail rest

/-- The rendering of an optional marked part (prerelease or build). -/
def optPart (mark : Char) : Option (List (List Char)) → List Char
  | none => []
  | some ps => mark :: renderLabels ps

/-- The language of the semantic-version regex as a decomposition into core
\d groups and optional label parts (classes as the regex engine matches
them, \d Unicode-aware). -/
def SemverRegexLang (s : List Char) : Prop :=
  ∃ (a b c : List Char) (pre build : Option (List (List Char))),
    digitsStr a = true ∧ digitsStr b = true ∧ digitsStr c = true ∧
    (∀ ps, pre = some ps → labelSeq ps = true) ∧
    (∀ ps, build = some ps → labelSeq ps = true) ∧
    s = a ++ ('.' :: (b ++ ('.' :: (c ++ (optPart '-' pre ++ optPart '+' build)))))

/-- Modelled from the spec: an allowed prerelease or build label character
per the SemVer 2.0.0 grammar the spec cites: an ASCII digit, an ASCII
letter or a dash. -/
def specLabelChar (c : Char) : Bool :=
  c.isDigit || c.isUpper || c.isLower || c == '-'

/-- Modelled from the spec: a nonempty ASCII digit run, one core group of
the SemVer 2.0.0 grammar. -/
def specDigits (l : List Char) : Bool := !l.isEmpty && l.all Char.isDigit

/-- Modelled from the spec: a nonempty ASCII label token. -/
def specLabelTok (l : List Char) : Bool := !l.isEmpty && l.all specLabelChar

/-- Modelled from the spec: a nonempty sequence of ASCII label tokens. -/
def specLabelSeq (ps : List (List Char)) : Bool := !ps.isEmpty && ps.all specLabelTok

/-- Modelled from the spec (its wording of the SemVer 2.0.0 grammar): the
strings of the grammar, as a decomposition into ASCII digit cores and
optional ASCII label parts. -/
def SemverSpec (s : List Char) : Prop :=
  ∃ (a b c : List Char) (pre build : Option (List (List Char))),
    specDigits a = true ∧ specDigits b = true ∧ specDigits c = true ∧
    (∀ ps, pre = some ps → specLabelSeq ps = true) ∧
    (∀ ps, build = some ps → specLabelSeq ps = true) ∧
    s = a ++ ('.' :: (b ++ ('.' :: (c ++ (optPart '-' pre ++ optPart '+' build)))))

/-! ## Small helpers used only by the proofs -/

/-- Is the head of the list a \d character. -/
def headDigit : List Char → Bool
  | [] => false
  | c :: _ => isNd c

/-- Does the list start with a character that ends a label sequence (neither
a label character nor a dot), or end altogether. -/
def stopsLabels : List Char → Bool
  | [] => true
  | c :: _ => !(labelChar c) && !(c == '.')

/-! ## Concrete fixtures for the closed theorems -/

/-- A TOML table for manager pacman in the higher-precedence directory. -/
def pacmanTableA : List (String × String) :=
  [("version", "pacman -V"), ("install", "pacman -S"), ("remove", "pacman -Rs")]

/-- A TOML table for manager pacman in the lower-precedence directory, with
different templates. -/
def pacmanTableB : List (String × String) :=
  [("version", "pacman --version"), ("install", "apt-get install")]

/-- The higher-precedence configuration directory. -/
def dirA : Directory := ⟨"/etc/upm", some [⟨"pacman.toml", some pacmanTableA⟩]⟩

/-- The lower-precedence configuration directory. -/
def dirB : Directory := ⟨"/usr/share/upm", some [⟨"pacman.toml", some pacmanTableB⟩]⟩

/-- The descriptor the higher-precedence directory yields. -/
def pacmanFromA : PackageManager :=
  { name := "pacman"
    version := "pacman -V"
    config_dir := "/etc/upm"
    install := some ("pacman -S")
    install_local := none
    remove := some ("pacman -Rs")
    remove_local := none
    search := none }

/-- A descriptor with a configured search template (for the run_command
counterexample). -/
def pmSearchable : PackageManager :=
  { pacmanFromA with search := some ("pacman -Ss") }

/-- The fixture of the commands_fail_gracefully test: a descriptor whose
version template names a script that cannot be launched. -/
def pmFake : PackageManager :=
  { name := "fake"
    version := "./fake/version.sh"
    config_dir := "./test-files/"
    install := none
    install_local := none
    remove := none
    remove_local := none
    search := none }

/-- A directory entry whose table has every key except the mandatory
version, so loading it fails with the missing-version error. -/
def badEntry : DirEntry := ⟨"broken.toml", some [("install", "broken install")]⟩

/-- A sibling entry that loads fine. -/
def goodEntry : DirEntry := ⟨"npm.toml", some [("version", "npm --version")]⟩

/-- The descriptor goodEntry yields inside /etc/upm. -/
def npmFromGood : PackageManager :=
  { name := "npm"
    version := "npm --version"
    config_dir := "/etc/upm"
    install := none
    install_local := none
    remove := none
    remove_local := none
    search := none }

/-! ## Theorems -/

/-- Helper: for two representations that both match the regex and are both
flagged semantic, the group-wise Match comparison of the source collapses to
plain string equality of the representations, because the derived PartialEq
of regex Match compares the whole haystack string along with the span. -/
theorem versionEq_semantic_is_string_equality :
    ∀ (r1 r2 : String), is_semantic r1 = true → is_semantic r2 = true →
      versionEq ⟨r1, true⟩ ⟨r2, true⟩ = some (r1 == r2) := by
  intro r1 r2 h1 h2
  unfold is_semantic at h1 h2
  rcases hp1 : parseCore r1.data with _ | ⟨a1, b1, c1, rest1⟩
  · rw [hp1] at h1; simp at h1
  rcases hp2 : parseCore r2.data with _ | ⟨a2, b2, c2, rest2⟩
  · rw [hp2] at h2; simp at h2
  by_cases he : r1 = r2
  · subst he
    have hq : (a1, b1, c1, rest1) = (a2, b2, c2, rest2) :=
      Option.some.inj (hp1.symm.trans hp2)
    simp only [Prod.mk.injEq] at hq
    obtain ⟨rfl, rfl, rfl, rfl⟩ := hq
    simp [versionEq, coreSpans, hp1, matchEq]
  · have hb : (r1 == r2) = false := by simp [he]
    simp [versionEq, coreSpans, hp1, hp2, matchEq, hb]

/-- C5 record: the code at the failing input of the claim. The two versions
are both semantic with equal MAJOR.MINOR.PATCH core triples, so the claim
says they are equal; the source compares the capture groups as regex Match
values, whose derived PartialEq includes the whole haystack string, so it
yields false. -/
theorem c5_core_triple_equality_fails :
    versionEq ⟨"1.2.3-rc1", true⟩ ⟨"1.2.3+buildX", true⟩ = some false ∧
    is_semantic ("1.2.3-rc1") = true ∧
    is_semantic ("1.2.3+buildX") = true := by
  decide

/-- C2 record: the code at the failing input of the claim. When launching
the version command fails, the current exists of upm_lib panics (the expect
on Command::status), modelled by `none`; it does not return false. The
earlier upm-lib copy returns false as the claim states. When the command
runs, the success flag is returned by both. -/
theorem c2_exists_panics_on_launch_failure :
    existsCheck (fun _ => none) pmFake = none ∧
    existsCheckOld (fun _ => none) pmFake = some false ∧
    existsCheck (fun _ => some true) pmFake = some true ∧
    existsCheck (fun _ => some false) pmFake = some false := by
  exact ⟨rfl, rfl, rfl, rfl⟩

/-- C8 record: the code at the failing input of the claim. A directory whose
enumeration fails (read_dir returns Err) is silently treated as empty:
get_managers returns Ok with the empty list, and read_config_dirs returns
the merge (no panic, no error value), so the caller gets an empty registry
with no DirectoryError signalled. -/
theorem c8_directory_failure_is_silent :
    ∀ (p : String) (ex : ManagerSpecifier),
      get_managers ⟨p, none⟩ ex = Except.ok [] ∧
      read_config_dirs [⟨p, none⟩] ex = some [] := by
  intro p ex
  exact ⟨rfl, rfl⟩

/-- C9 amended: in upm_lib, set_semantic true fails (an Err) exactly when
the representation fails is_semantic, set_semantic false always succeeds,
and in every case the representation is unchanged (on success the flag
becomes the requested value); the earlier upm-lib copy behaves the same with
a boolean return; the legacy managers.rs copy performs no validation and
unconditionally sets the flag on the (moved) value. -/
theorem c9_set_semantic_validation :
    ∀ (v : Version) (val : Bool),
      exceptIsOk (set_semantic v val) = (!val || is_semantic v.representation) ∧
      (∀ w, set_semantic v val = Except.ok w →
        w.representation = v.representation ∧ w.semantic = val) ∧
      (set_semantic_old v val).1 = (!val || is_semantic v.representation) ∧
      (set_semantic_old v val).2.representation = v.representation ∧
      (managers_set_semantic v val).representation = v.representation ∧
      (managers_set_semantic v val).semantic = val := by
  intro v val
  refine ⟨?_, ?_, ?_, ?_, rfl, rfl⟩
  · cases val
    · simp [set_semantic, exceptIsOk]
    · cases hs : is_semantic v.representation <;> simp [set_semantic, exceptIsOk, hs]
  · intro w hw
    unfold set_semantic at hw
    split at hw
    · exact Except.noConfusion hw
    · cases hw
      exact ⟨rfl, rfl⟩
  · cases val
    · simp [set_semantic_old]
    · cases hs : is_semantic v.representation <;> simp [set_semantic_old, hs]
  · unfold set_semantic_old
    split <;> rfl

/-- C9 counterexample: the claim, read against the managers.rs copy it
cites, is false at a concrete input: the representation abc fails
is_semantic, yet set_semantic true succeeds there (it returns after
unconditionally setting the flag, with no ValidationError channel at all). -/
theorem c9_managers_counterexample :
    is_semantic ("abc") = false ∧
    managers_set_semantic ⟨"abc", false⟩ true = ⟨"abc", true⟩ := by
  decide

/-- C10: descriptor equality, hashing and ordering depend on the name field
only, so the merge of the registry treats two descriptors with the same name
and entirely different remaining fields as the same manager: the later one
is dropped. -/
theorem c10_identity_by_name_only :
    ∀ (a b : PackageManager) (h : String → Nat),
      (pmEq a b = true ↔ a.name = b.name) ∧
      (a.name = b.name → pmHash h a = pmHash h b) ∧
      pmCmp a b = compare a.name b.name ∧
      (a.name = b.name → List.foldl insertNew [] [a, b] = [a]) := by
  intro a b h
  refine ⟨?_, ?_, rfl, ?_⟩
  · simp [pmEq]
  · intro he; simp [pmHash, he]
  · intro he; simp [List.foldl, insertNew, pmEq, he]

/-- C10 witness: two descriptors that differ in every field except the name
are merge-identical: only the first survives. -/
theorem c10_identity_witness :
    pmEq pmSearchable pacmanFromA = true ∧
    List.foldl insertNew [] [pmSearchable, pacmanFromA] = [pmSearchable] := by
  decide

/-- C3 amended: run_command panics (modelled `none`) for every name outside
the five slots of the make_command match, and the name search is outside
that match even though search is a field of the descriptor; it also panics
(the unwrap) when the slot is known but the descriptor has no template for
it; when the slot has a template that tokenizes to a program, a launch
failure is returned as an Err (the bail), distinguishable from the Ok
handle, and never a panic. -/
theorem c3_run_command_panics_not_errors :
    ∀ (spawn : Cmd → Option Child) (pm : PackageManager) (nm args : String),
      slotTemplate pm ("search") = none ∧
      (slotTemplate pm nm = none → run_command spawn pm nm args = none) ∧
      (slotTemplate pm nm = some none → run_command spawn pm nm args = none) ∧
      (∀ t p rest, slotTemplate pm nm = some (some t) →
        split_whitespace (fix_relative_path pm.config_dir t) = p :: rest →
        run_command spawn pm nm args =
          some (match spawn ⟨p, rest ++ split_whitespace args⟩ with
                | some child => Except.ok child
                | none => Except.error ("Could not execute command"))) := by
  intro spawn pm nm args
  refine ⟨rfl, ?_, ?_, ?_⟩
  · intro h; simp [run_command, make_command, h]
  · intro h; simp [run_command, make_command, h]
  · intro t p rest h1 h2
    simp only [run_command, make_command, h1, h2]
    cases spawn ⟨p, rest ++ split_whitespace args⟩ <;> rfl

/-- C3 counterexample: the claim says the slot name search is one of the
known slots, so with a configured search template and a spawn that succeeds
run_command must return (at least, must not panic); the code panics at the
make_command match, which has no arm for search. -/
theorem c3_search_counterexample :
    pmSearchable.search = some ("pacman -Ss") ∧
    run_command (fun _ => some ⟨0⟩) pmSearchable ("search") ("vim") = none := by
  exact ⟨rfl, rfl⟩

/-- C4: a template that begins with dot slash resolves to the character
level concatenation of config_dir and the template with no separator (the
concrete pair of the claim included), any other template is used verbatim,
and the resolved string is whitespace-tokenized into the program and the
fixed arguments, with the whitespace-tokenized caller arguments appended
after the fixed ones. -/
theorem c4_relative_path_resolution :
    ∀ (cd t args : String) (spawn : Cmd → Option Child) (p : String) (rest : List String),
      (leadsWith ("./") t = true → fix_relative_path cd t = cd ++ t) ∧
      (leadsWith ("./") t = false → fix_relative_path cd t = t) ∧
      fix_relative_path ("/etc/upm/pacman") ("./version.sh") = "/etc/upm/pacman./version.sh" ∧
      (split_whitespace (fix_relative_path cd t) = p :: rest →
        run_command spawn ⟨"", t, cd, none, none, none, none, none⟩ ("version") args =
          some (match spawn ⟨p, rest ++ split_whitespace args⟩ with
                | some child => Except.ok child
                | none => Except.error ("Could not execute command"))) := by
  intro cd t args spawn p rest
  refine ⟨?_, ?_, by decide, ?_⟩
  · intro h; simp [fix_relative_path, h]
  · intro h; simp [fix_relative_path, h]
  · intro h
    simp only [run_command, make_command, slotTemplate, h]
    cases spawn ⟨p, rest ++ split_whitespace args⟩ <;> rfl

/-- C4 witness: the concrete resolution of the claim, by the theorem. -/
theorem c4_resolution_witness :
    fix_relative_path ("/etc/upm/pacman") ("./version.sh") = "/etc/upm/pacman./version.sh" :=
  (c4_relative_path_resolution ("") ("") ("") (fun _ => none) ("") []).2.2.1

/-- Helper: inserting into the merge set keeps the lookup by a fixed name n
equal to the first descriptor of that name seen so far: folding insertNew
over a list and then looking up n finds what a lookup in the accumulator
finds, or else the first descriptor named n in the list. -/
theorem foldl_insertNew_find (n : String) :
    ∀ (l acc : List PackageManager),
      (List.foldl insertNew acc l).find? (fun m => m.name == n)
        = (acc.find? (fun m => m.name == n)).or (l.find? (fun m => m.name == n)) := by
  intro l
  induction l with
  | nil => intro acc; simp [Option.or_none]
  | cons m l ih =>
    intro acc
    rw [List.foldl_cons, ih]
    by_cases hin : (acc.any fun x => pmEq x m) = true
    · rw [show insertNew acc m = acc from by simp [insertNew, hin]]
      cases hp : (m.name == n) with
      | true =>
        obtain ⟨x, hx, hex⟩ := List.any_eq_true.mp hin
        have h1 : x.name = m.name := by simpa [pmEq] using hex
        have hsome : (acc.find? fun m => m.name == n).isSome := by
          rw [List.find?_isSome]
          refine ⟨x, hx, ?_⟩
          show (x.name == n) = true
          rw [h1]; exact hp
        obtain ⟨y, hy⟩ := Option.isSome_iff_exists.mp hsome
        rw [hy]
        simp [List.find?, hp]
      | false =>
        simp [List.find?, hp]
    · rw [show insertNew acc m = acc ++ [m] from by simp [insertNew, hin]]
      rw [List.find?_append]
      cases hp : (m.name == n) with
      | true =>
        have hnone : acc.find? (fun m => m.name == n) = none := by
          cases hf : acc.find? (fun m => m.name == n) with
          | none => rfl
          | some y =>
            exfalso
            have hy := List.find?_some hf
            have hmem := List.mem_of_find?_eq_some hf
            apply hin
            refine List.any_eq_true.mpr ⟨y, hmem, ?_⟩
            have h1 : y.name = n := by simpa using hy
            have h2 : m.name = n := by simpa using hp
            simp [pmEq, h1, h2]
        rw [hnone]
        simp [List.find?, hp]
      | false =>
        simp [List.find?, hp, Option.or_none]

/-- Helper: folding insertNew never accumulates two descriptors of one
name: if the accumulator holds at most one descriptor named n, so does the
fold result. -/
theorem foldl_insertNew_count (n : String) :
    ∀ (l acc : List PackageManager),
      acc.countP (fun m => m.name == n) ≤ 1 →
      (List.foldl insertNew acc l).countP (fun m => m.name == n) ≤ 1 := by
  intro l
  induction l with
  | nil => intro acc h; exact h
  | cons m l ih =>
    intro acc h
    rw [List.foldl_cons]
    apply ih
    by_cases hin : (acc.any fun x => pmEq x m) = true
    · rw [show insertNew acc m = acc from by simp [insertNew, hin]]; exact h
    · rw [show insertNew acc m = acc ++ [m] from by simp [insertNew, hin]]
      rw [List.countP_append]
      by_cases hp : (m.name == n) = true
      · have hzero : acc.countP (fun m => m.name == n) = 0 := by
          rw [List.countP_eq_zero]
          intro x hx hxp
          apply hin
          refine List.any_eq_true.mpr ⟨x, hx, ?_⟩
          have h1 : x.name = n := by simpa using hxp
          have h2 : m.name = n := by simpa using hp
          simp [pmEq, h1, h2]
        rw [hzero, List.countP_singleton, if_pos hp]
      · rw [List.countP_singleton, if_neg (by simpa using hp)]
        simpa using h

/-- Helper: the merge of read_config_dirs never takes its panic arm (the
source function get_managers always returns Ok), and the registry it
returns is the insert-if-absent fold over all scanned descriptors in
precedence order. -/
theorem read_config_dirs_eq (dirs : List Directory) (ex : ManagerSpecifier) :
    read_config_dirs dirs ex = some (List.foldl insertNew [] (allScanned dirs ex)) := by
  have h : ∀ (ds : List Directory) (r : List PackageManager),
      List.foldl
        (fun acc d =>
          match acc with
          | none => none
          | some r =>
            match get_managers d ex with
            | Except.ok tmp => some (tmp.foldl insertNew r)
            | Except.error _ => none)
        (some r) ds
      = some (List.foldl insertNew r (allScanned ds ex)) := by
    intro ds
    induction ds with
    | nil => intro r; simp [allScanned]
    | cons d rest ih =>
      intro r
      rw [List.foldl_cons]
      show List.foldl _ (some (List.foldl insertNew r (get_managers_list d ex))) rest = _
      rw [ih]
      simp [allScanned, List.foldl_append]
  exact h dirs []

/-- C1: for every directory list in precedence order and every specifier,
the registry read_config_dirs yields exists (the panic arm is dead), holds
at most one descriptor per name, and its entry for a name n is the first
descriptor named n among the scanned descriptors in precedence order, as a
whole record: every field of the entry comes from the earliest directory
defining n, and later descriptors of the same name are ignored entirely. -/
theorem c1_first_directory_wins :
    ∀ (dirs : List Directory) (ex : ManagerSpecifier) (n : String),
      ∃ reg, read_config_dirs dirs ex = some reg ∧
        (reg.filter (fun m => m.name == n)).length ≤ 1 ∧
        reg.find? (fun m => m.name == n) =
          (allScanned dirs ex).find? (fun m => m.name == n) := by
  intro dirs ex n
  refine ⟨_, read_config_dirs_eq dirs ex, ?_, ?_⟩
  · have h := foldl_insertNew_count n (allScanned dirs ex) [] (by simp)
    simpa [List.countP_eq_length_filter] using h
  · have h := foldl_insertNew_find n (allScanned dirs ex) []
    simpa using h

/-- C1 witness: the concrete example of the spec: directories A and B both
define pacman with different install templates; the merge keeps exactly the
descriptor of A, every field included. -/
theorem c1_precedence_witness :
    read_config_dirs [dirA, dirB] ManagerSpecifier.empty = some [pacmanFromA] := by
  decide

/-- C7: the scan of a directory returns exactly the descriptors of the
direct entries whose file name has the TOML suffix, whose stem passes the
specifier and whose load succeeds, in enumeration order; a membership
reading of the same fact; and get_managers wraps exactly this scan for a
readable directory. An entry whose load fails is omitted while its siblings
stay, as the filterMap form shows entry by entry. -/
theorem c7_scan_exactly_filters :
    ∀ (path : String) (ex : ManagerSpecifier) (es : List DirEntry)
      (m : PackageManager) (d : Directory),
      scanEntries path ex es =
        es.filterMap (fun e =>
          if endsIn (".toml") e.fileName && passes ex (fileStem e.fileName) then
            (from_file path e).toOption
          else none) ∧
      (m ∈ scanEntries path ex es ↔
        ∃ e, e ∈ es ∧ endsIn (".toml") e.fileName = true ∧
          passes ex (fileStem e.fileName) = true ∧
          from_file path e = Except.ok m) ∧
      (d.entries = some es → get_managers d ex = Except.ok (scanEntries d.path ex es)) := by
  intro path ex es m d
  have hfm : scanEntries path ex es =
      es.filterMap (fun e =>
        if endsIn (".toml") e.fileName && passes ex (fileStem e.fileName) then
          (from_file path e).toOption
        else none) := by
    induction es with
    | nil => rfl
    | cons e rest ih =>
      cases h1 : endsIn (".toml") e.fileName with
      | false => simp [scanEntries, h1, List.filterMap_cons, ih]
      | true =>
        cases h2 : passes ex (fileStem e.fileName) with
        | false => simp [scanEntries, h1, h2, List.filterMap_cons, ih]
        | true =>
          cases hf : from_file path e with
          | ok man =>
            simp [scanEntries, h1, h2, hf, List.filterMap_cons, Except.toOption, ih]
          | error s =>
            simp [scanEntries, h1, h2, hf, List.filterMap_cons, Except.toOption, ih]
  refine ⟨hfm, ?_, ?_⟩
  · rw [hfm, List.mem_filterMap]
    constructor
    · rintro ⟨e, he, hfe⟩
      cases h1 : endsIn (".toml") e.fileName with
      | false => rw [h1] at hfe; simp at hfe
      | true =>
        cases h2 : passes ex (fileStem e.fileName) with
        | false => rw [h1, h2] at hfe; simp at hfe
        | true =>
          rw [h1, h2] at hfe
          cases hf : from_file path e with
          | ok man =>
            rw [hf] at hfe
            simp [Except.toOption] at hfe
            exact ⟨e, he, h1, h2, by rw [hf, hfe]⟩
          | error s =>
            rw [hf] at hfe
            simp [Except.toOption] at hfe
    · rintro ⟨e, he, h1, h2, hok⟩
      exact ⟨e, he, by simp [h1, h2, hok, Except.toOption]⟩
  · intro h
    simp [get_managers, get_managers_list, h]

/-- C7 witness: in one directory, an entry missing the mandatory version
key fails to load with the missing-version error and is omitted, while the
sibling valid file still appears; and the Excludes and Includes specifiers
skip by stem. -/
theorem c7_scan_witness :
    scanEntries ("/etc/upm") ManagerSpecifier.empty [badEntry, goodEntry] = [npmFromGood] ∧
    from_file ("/etc/upm") badEntry =
      Except.error ("Package manager version command not provided in config") ∧
    scanEntries ("/etc/upm") (ManagerSpecifier.excludes ["npm"]) [goodEntry] = [] ∧
    scanEntries ("/etc/upm") (ManagerSpecifier.includes ["pacman"]) [goodEntry] = [] ∧
    scanEntries ("/etc/upm") (ManagerSpecifier.includes ["npm"]) [goodEntry] = [npmFromGood] := by
  exact ⟨rfl, rfl, rfl, rfl, rfl⟩

/-- Helper: what takeDigits returns is a decomposition of its input: an
all-digit front whose remainder does not start with a digit. -/
theorem takeDigits_sound :
    ∀ (l d r : List Char), takeDigits l = (d, r) →
      l = d ++ r ∧ d.all isNd = true ∧ headDigit r = false := by
  intro l
  induction l with
  | nil =>
    intro d r h
    rw [show takeDigits ([] : List Char) = ([], []) from rfl] at h
    have hd : d = [] := by cases h; rfl
    have hr : r = [] := by cases h; rfl
    subst hd hr
    exact ⟨rfl, rfl, rfl⟩
  | cons c l ih =>
    intro d r h
    cases hc : isNd c with
    | true =>
      rcases hp : takeDigits l with ⟨d1, r1⟩
      rw [show takeDigits (c :: l) = (c :: d1, r1) from by simp [takeDigits, hc, hp]] at h
      have hd : d = c :: d1 := by cases h; rfl
      have hr : r = r1 := by cases h; rfl
      subst hd hr
      obtain ⟨h1, h2, h3⟩ := ih d1 r hp
      exact ⟨by rw [h1]; rfl, by simp [h2, hc], h3⟩
    | false =>
      rw [show takeDigits (c :: l) = ([], c :: l) from by simp [takeDigits, hc]] at h
      have hd : d = [] := by cases h; rfl
      have hr : r = c :: l := by cases h; rfl
      subst hd hr
      exact ⟨rfl, rfl, by simpa [headDigit] using hc⟩

/-- Helper: takeDigits consumes exactly an all-digit front when the
remainder does not start with a digit. -/
theorem takeDigits_complete :
    ∀ (d r : List Char), d.all isNd = true → headDigit r = false →
      takeDigits (d ++ r) = (d, r) := by
  intro d
  induction d with
  | nil =>
    intro r _ hr
    cases r with
    | nil => rfl
    | cons c rs => simp [takeDigits, show isNd c = false from by simpa [headDigit] using hr]
  | cons c d ih =>
    intro r hall hr
    rw [List.all_cons, Bool.and_eq_true] at hall
    simp [takeDigits, hall.1, ih r hall.2 hr]

/-- Helper: scanLabels walks over the characters of the current token. -/
theorem scanLabels_chars :
    ∀ (t r : List Char) (b : Bool), t.all labelChar = true →
      scanLabels (t ++ r) b = scanLabels r (b && t.isEmpty) := by
  intro t
  induction t with
  | nil => intro r b _; simp
  | cons c t ih =>
    intro r b h
    rw [List.all_cons, Bool.and_eq_true] at h
    rw [show scanLabels ((c :: t) ++ r) b = scanLabels (t ++ r) false from by
      simp [scanLabels, h.1]]
    rw [ih r false h.2]
    simp

/-- Helper: a dot-led token sequence rendered after the first token is
consumed exactly by scanLabels in the completed-token state, up to a
remainder that stops a label sequence. -/
theorem scanLabels_renderTail :
    ∀ (ps : List (List Char)) (r : List Char),
      ps.all labelTok = true → stopsLabels r = true →
      scanLabels (renderTail ps ++ r) false = some r := by
  intro ps
  induction ps with
  | nil =>
    intro r _ hr
    cases r with
    | nil => rfl
    | cons c rs =>
      have h1 : labelChar c = false := by
        have := hr
        simp only [stopsLabels, Bool.and_eq_true, Bool.not_eq_true'] at this
        exact this.1
      have h2 : (c == '.') = false := by
        have := hr
        simp only [stopsLabels, Bool.and_eq_true, Bool.not_eq_true'] at this
        exact this.2
      simp [renderTail, scanLabels, h1, h2]
  | cons q ps ih =>
    intro r hall hr
    rw [List.all_cons, Bool.and_eq_true] at hall
    have hq : q.all labelChar = true := by
      have := hall.1
      simp only [labelTok, Bool.and_eq_true] at this
      exact this.2
    have hqne : q.isEmpty = false := by
      have := hall.1
      simp only [labelTok, Bool.and_eq_true, Bool.not_eq_true'] at this
      exact this.1
    rw [show renderTail (q :: ps) ++ r = '.' :: (q ++ (renderTail ps ++ r)) from by
      simp [renderTail]]
    rw [show scanLabels ('.' :: (q ++ (renderTail ps ++ r))) false
        = scanLabels (q ++ (renderTail ps ++ r)) true from by
      simp [scanLabels, show labelChar '.' = false from by decide]]
    rw [scanLabels_chars q _ true hq, hqne]
    simpa using ih r hall.2 hr

/-- Helper: a rendered nonempty label sequence is consumed exactly by
scanLabels in the starting state. -/
theorem scanLabels_renderLabels :
    ∀ (ps : List (List Char)) (r : List Char),
      labelSeq ps = true → stopsLabels r = true →
      scanLabels (renderLabels ps ++ r) true = some r := by
  intro ps r hps hr
  cases ps with
  | nil => simp [labelSeq] at hps
  | cons t ps =>
    simp only [labelSeq, List.all_cons, Bool.and_eq_true] at hps
    have ht : t.all labelChar = true := by
      have := hps.2.1
      simp only [labelTok, Bool.and_eq_true] at this
      exact this.2
    have htne : t.isEmpty = false := by
      have := hps.2.1
      simp only [labelTok, Bool.and_eq_true, Bool.not_eq_true'] at this
      exact this.1
    rw [show renderLabels (t :: ps) ++ r = t ++ (renderTail ps ++ r) from by
      simp [renderLabels]]
    rw [scanLabels_chars t _ true ht, htne]
    simpa using scanLabels_renderTail ps r hps.2.2 hr

/-- Helper: whatever scanLabels accepts decomposes into a (possibly
partial, when the scan starts in the completed-token state) first token
followed by dot-led tokens and the returned remainder. -/
theorem scanLabels_sound :
    ∀ (l : List Char) (b : Bool) (r : List Char),
      scanLabels l b = some r →
      ∃ t ps, t.all labelChar = true ∧ ps.all labelTok = true ∧
        l = t ++ (renderTail ps ++ r) ∧ (b = true → labelTok t = true) := by
  intro l
  induction l with
  | nil =>
    intro b r h
    cases b with
    | true => simp [scanLabels] at h
    | false =>
      have hr : r = [] := by
        have h' : some ([] : List Char) = some r := h
        exact (Option.some.inj h').symm
      subst hr
      exact ⟨[], [], rfl, rfl, rfl, by intro hb; cases hb⟩
  | cons c l ih =>
    intro b r h
    cases hc : labelChar c with
    | true =>
      rw [show scanLabels (c :: l) b = scanLabels l false from by simp [scanLabels, hc]] at h
      obtain ⟨t, ps, ht, hps, hl, _⟩ := ih false r h
      refine ⟨c :: t, ps, by simp [ht, hc], hps, by simp [hl], ?_⟩
      intro _
      simp [labelTok, hc, ht]
    | false =>
      cases hdot : (c == '.') with
      | true =>
        have hceq : c = '.' := by simpa using hdot
        cases b with
        | true =>
          rw [show scanLabels (c :: l) true = none from by simp [scanLabels, hc, hdot]] at h
          cases h
        | false =>
          rw [show scanLabels (c :: l) false = scanLabels l true from by
            simp [scanLabels, hc, hdot]] at h
          obtain ⟨t, ps, ht, hps, hl, htok⟩ := ih true r h
          refine ⟨[], t :: ps, rfl, by simp [hps, htok rfl], ?_, ?_⟩
          · subst hceq
            simp [renderTail, hl]
          · intro hb; cases hb
      | false =>
        cases b with
        | true =>
          rw [show scanLabels (c :: l) true = none from by simp [scanLabels, hc, hdot]] at h
          cases h
        | false =>
          rw [show scanLabels (c :: l) false = some (c :: l) from by
            simp [scanLabels, hc, hdot]] at h
          have hr : r = c :: l := (Option.some.inj h).symm
          subst hr
          exact ⟨[], [], rfl, rfl, by simp [renderTail], by intro hb; cases hb⟩

/-- Helper: the rest parser accepts every rendered optional-part pair. -/
theorem parseRest_complete :
    ∀ (pre build : Option (List (List Char))),
      (∀ ps, pre = some ps → labelSeq ps = true) →
      (∀ ps, build = some ps → labelSeq ps = true) →
      parseRest (optPart '-' pre ++ optPart '+' build) = true := by
  intro pre build hpre hbuild
  cases pre with
  | none =>
    cases build with
    | none => rfl
    | some qs =>
      have hq := scanLabels_renderLabels qs [] (hbuild qs rfl) rfl
      rw [List.append_nil] at hq
      show parseRest ('+' :: renderLabels qs) = true
      simp [parseRest, labelsToEnd, hq]
  | some ps =>
    cases build with
    | none =>
      have hp := scanLabels_renderLabels ps [] (hpre ps rfl) rfl
      rw [List.append_nil] at hp
      show parseRest (('-' :: renderLabels ps) ++ []) = true
      rw [List.append_nil]
      simp [parseRest, hp]
    | some qs =>
      have hp := scanLabels_renderLabels ps ('+' :: renderLabels qs) (hpre ps rfl)
        (by rfl)
      have hq := scanLabels_renderLabels qs [] (hbuild qs rfl) rfl
      rw [List.append_nil] at hq
      show parseRest (('-' :: renderLabels ps) ++ ('+' :: renderLabels qs)) = true
      rw [show ('-' :: renderLabels ps) ++ ('+' :: renderLabels qs)
          = '-' :: (renderLabels ps ++ ('+' :: renderLabels qs)) from rfl]
      simp [parseRest, hp, labelsToEnd, hq]

/-- Helper: whatever the rest parser accepts is a rendered optional-part
pair. -/
theorem parseRest_sound :
    ∀ (rest : List Char), parseRest rest = true →
      ∃ pre build, (∀ ps, pre = some ps → labelSeq ps = true) ∧
        (∀ ps, build = some ps → labelSeq ps = true) ∧
        rest = optPart '-' pre ++ optPart '+' build := by
  intro rest h
  cases rest with
  | nil => exact ⟨none, none, by simp, by simp, rfl⟩
  | cons c r =>
    by_cases hc : (c == '-') = true
    · have hceq : c = '-' := by simpa using hc
      subst hceq
      rw [show parseRest ('-' :: r) = (match scanLabels r true with
            | some [] => true
            | some (c2 :: r2) => c2 == '+' && labelsToEnd r2
            | none => false) from by simp [parseRest]] at h
      cases hs : scanLabels r true with
      | none => rw [hs] at h; cases h
      | some r1 =>
        rw [hs] at h
        cases r1 with
        | nil =>
          obtain ⟨t, ps, ht, hps, hl, htok⟩ := scanLabels_sound r true [] hs
          refine ⟨some (t :: ps), none, ?_, by simp, ?_⟩
          · intro ps' hps'
            rw [← Option.some.inj hps']
            simp [labelSeq, htok rfl, hps]
          · simp [optPart, renderLabels, hl]
        | cons c2 r2 =>
          rw [Bool.and_eq_true] at h
          have hc2 : c2 = '+' := by simpa using h.1
          subst hc2
          have h2 : scanLabels r2 true = some [] := by
            have hb := h.2
            rw [labelsToEnd] at hb
            cases hs2 : scanLabels r2 true with
            | none => rw [hs2] at hb; cases hb
            | some x =>
              cases x with
              | nil => rfl
              | cons y ys => rw [hs2] at hb; cases hb
          obtain ⟨t, ps, ht, hps, hl, htok⟩ := scanLabels_sound r true ('+' :: r2) hs
          obtain ⟨t2, ps2, ht2, hps2, hl2, htok2⟩ := scanLabels_sound r2 true [] h2
          refine ⟨some (t :: ps), some (t2 :: ps2), ?_, ?_, ?_⟩
          · intro ps' hps'
            rw [← Option.some.inj hps']
            simp [labelSeq, htok rfl, hps]
          · intro ps' hps'
            rw [← Option.some.inj hps']
            simp [labelSeq, htok2 rfl, hps2]
          · rw [List.append_nil] at hl2
            simp [optPart, renderLabels, hl, hl2]
    · by_cases hc2 : (c == '+') = true
      · have hceq : c = '+' := by simpa using hc2
        subst hceq
        rw [show parseRest ('+' :: r) = labelsToEnd r from by simp [parseRest]] at h
        have h2 : scanLabels r true = some [] := by
          rw [labelsToEnd] at h
          cases hs2 : scanLabels r true with
          | none => rw [hs2] at h; cases h
          | some x =>
            cases x with
            | nil => rfl
            | cons y ys => rw [hs2] at h; cases h
        obtain ⟨t, ps, ht, hps, hl, htok⟩ := scanLabels_sound r true [] h2
        refine ⟨none, some (t :: ps), by simp, ?_, ?_⟩
        · intro ps' hps'
          rw [← Option.some.inj hps']
          simp [labelSeq, htok rfl, hps]
        · rw [List.append_nil] at hl
          simp [optPart, renderLabels, hl]
      · rw [show parseRest (c :: r) = false from by simp [parseRest, hc, hc2]] at h
        cases h

/-- Helper: the core parser accepts every rendered core. -/
theorem parseCore_complete :
    ∀ (a b c tail : List Char),
      digitsStr a = true → digitsStr b = true → digitsStr c = true →
      headDigit tail = false →
      parseCore (a ++ ('.' :: (b ++ ('.' :: (c ++ tail))))) = some (a, b, c, tail) := by
  intro a b c tail ha hb hc htail
  rw [digitsStr, Bool.and_eq_true, Bool.not_eq_true'] at ha hb hc
  have h1 : takeDigits (a ++ ('.' :: (b ++ ('.' :: (c ++ tail)))))
      = (a, '.' :: (b ++ ('.' :: (c ++ tail)))) :=
    takeDigits_complete _ _ ha.2 rfl
  have h2 : takeDigits (b ++ ('.' :: (c ++ tail))) = (b, '.' :: (c ++ tail)) :=
    takeDigits_complete _ _ hb.2 rfl
  have h3 : takeDigits (c ++ tail) = (c, tail) :=
    takeDigits_complete _ _ hc.2 htail
  simp [parseCore, h1, h2, h3, ha.1, hb.1, hc.1]

/-- Helper: whatever the core parser accepts decomposes into three digit
groups and the remainder. -/
theorem parseCore_sound :
    ∀ (s a b c rest : List Char),
      parseCore s = some (a, b, c, rest) →
      digitsStr a = true ∧ digitsStr b = true ∧ digitsStr c = true ∧
      s = a ++ ('.' :: (b ++ ('.' :: (c ++ rest)))) := by
  intro s a b c rest h
  unfold parseCore at h
  rcases h1 : takeDigits s with ⟨a1, r1⟩
  rw [h1] at h
  dsimp only at h
  cases he1 : a1.isEmpty with
  | true => rw [he1] at h; cases h
  | false =>
    rw [he1] at h
    simp only [Bool.false_eq_true, if_false] at h
    cases r1 with
    | nil => cases h
    | cons c1 r2 =>
      dsimp only at h
      cases hd1 : (c1 == '.') with
      | false => rw [hd1] at h; simp at h
      | true =>
        rw [hd1] at h
        simp only [if_true] at h
        rcases h2 : takeDigits r2 with ⟨b1, r3⟩
        rw [h2] at h
        dsimp only at h
        cases he2 : b1.isEmpty with
        | true => rw [he2] at h; cases h
        | false =>
          rw [he2] at h
          simp only [Bool.false_eq_true, if_false] at h
          cases r3 with
          | nil => cases h
          | cons c2 r4 =>
            dsimp only at h
            cases hd2 : (c2 == '.') with
            | false => rw [hd2] at h; simp at h
            | true =>
              rw [hd2] at h
              simp only [if_true] at h
              rcases h3 : takeDigits r4 with ⟨c3, r5⟩
              rw [h3] at h
              dsimp only at h
              cases he3 : c3.isEmpty with
              | true => rw [he3] at h; cases h
              | false =>
                rw [he3] at h
                simp only [Bool.false_eq_true, if_false, Option.some.injEq] at h
                have ha : a1 = a := by cases h; rfl
                have hb : b1 = b := by cases h; rfl
                have hcc : c3 = c := by cases h; rfl
                have hrest : r5 = rest := by cases h; rfl
                subst ha hb hcc hrest
                obtain ⟨hs1, hall1, _⟩ := takeDigits_sound s a1 (c1 :: r2) h1
                obtain ⟨hs2, hall2, _⟩ := takeDigits_sound r2 b1 (c2 :: r4) h2
                obtain ⟨hs3, hall3, _⟩ := takeDigits_sound r4 c3 r5 h3
                have hc1 : c1 = '.' := by simpa using hd1
                have hc2 : c2 = '.' := by simpa using hd2
                refine ⟨?_, ?_, ?_, ?_⟩
                · simp [digitsStr, hall1, he1]
                · simp [digitsStr, hall2, he2]
                · simp [digitsStr, hall3, he3]
                · rw [hs1, hc1, hs2, hc2, hs3]

/-- Helper: every ASCII digit is a \d character. -/
theorem isNd_of_isDigit : ∀ c : Char, c.isDigit = true → isNd c = true := by
  intro c h
  simp [isNd, h]

/-- Helper: every label character of the spec grammar is a label character
of the regex class. -/
theorem labelChar_of_specLabelChar :
    ∀ c : Char, specLabelChar c = true → labelChar c = true := by
  intro c h
  rw [specLabelChar] at h
  rcases Bool.or_eq_true .. ▸ h with h1 | h1
  · rcases Bool.or_eq_true .. ▸ h1 with h2 | h2
    · rcases Bool.or_eq_true .. ▸ h2 with h3 | h3
      · simp [labelChar, isNd_of_isDigit c h3]
      · simp [labelChar, h3]
    · simp [labelChar, h2]
  · simp [labelChar, h1]

/-- Helper: the spec grammar is contained in the regex language: the same
decomposition works, with each ASCII class widened to the regex class. -/
theorem semverSpec_sub_regexLang :
    ∀ s : List Char, SemverSpec s → SemverRegexLang s := by
  rintro s ⟨a, b, c, pre, build, ha, hb, hc, hpre, hbuild, hs⟩
  have hdig : ∀ l : List Char, specDigits l = true → digitsStr l = true := by
    intro l hl
    rw [specDigits, Bool.and_eq_true, List.all_eq_true] at hl
    rw [digitsStr, Bool.and_eq_true, List.all_eq_true]
    exact ⟨hl.1, fun x hx => isNd_of_isDigit x (hl.2 x hx)⟩
  have hseq : ∀ ps, specLabelSeq ps = true → labelSeq ps = true := by
    intro ps hps
    rw [specLabelSeq, Bool.and_eq_true, List.all_eq_true] at hps
    rw [labelSeq, Bool.and_eq_true, List.all_eq_true]
    refine ⟨hps.1, fun t ht => ?_⟩
    have h2 := hps.2 t ht
    rw [specLabelTok, Bool.and_eq_true, List.all_eq_true] at h2
    rw [labelTok, Bool.and_eq_true, List.all_eq_true]
    exact ⟨h2.1, fun x hx => labelChar_of_specLabelChar x (h2.2 x hx)⟩
  exact ⟨a, b, c, pre, build, hdig a ha, hdig b hb, hdig c hc,
    fun ps h => hseq ps (hpre ps h), fun ps h => hseq ps (hbuild ps h), hs⟩

/-- C6 amended: is_semantic accepts every string of the SemVer 2.0.0
grammar as the spec words it (so every strict SemVer string), and accepts
exactly the strings of that shape with the digit class widened from the
ASCII digits to the Unicode decimal digits the regex class \d matches, in
the core groups and in the prerelease and build labels alike; the three
example strings of the claim decide as the claim states. Strings outside
the widened language — non-numeric cores, characters such as @ in a label —
are rejected, but a non-ASCII Unicode digit is accepted where the claim
says resolution must reject it (see the counterexample). -/
theorem c6_is_semantic_grammar :
    ∀ s : String,
      (SemverSpec s.data → is_semantic s = true) ∧
      (is_semantic s = true ↔ SemverRegexLang s.data) ∧
      is_semantic ("0.1.1-prerelease+builddata") = true ∧
      is_semantic ("a.b.c") = false ∧
      is_semantic ("0.1.1-b@d") = false := by
  intro s
  have hiff : is_semantic s = true ↔ SemverRegexLang s.data := by
    constructor
    · intro h
      unfold is_semantic at h
      rcases hp : parseCore s.data with _ | ⟨a, b, c, rest⟩
      · rw [hp] at h; cases h
      · rw [hp] at h
        obtain ⟨ha, hb, hc, hs⟩ := parseCore_sound s.data a b c rest hp
        obtain ⟨pre, build, hpre, hbuild, hrest⟩ := parseRest_sound rest h
        exact ⟨a, b, c, pre, build, ha, hb, hc, hpre, hbuild, by rw [hs, hrest]⟩
    · rintro ⟨a, b, c, pre, build, ha, hb, hc, hpre, hbuild, hs⟩
      unfold is_semantic
      rw [hs]
      have htail : headDigit (optPart '-' pre ++ optPart '+' build) = false := by
        cases pre with
        | some ps => rfl
        | none =>
          cases build with
          | some qs => rfl
          | none => rfl
      rw [parseCore_complete a b c _ ha hb hc htail]
      exact parseRest_complete pre build hpre hbuild
  exact ⟨fun h => hiff.mpr (semverSpec_sub_regexLang s.data h),
    hiff, by decide, by decide, by decide⟩

/-- C6 counterexample: the claim, as stated, is false at a concrete input:
the Arabic-Indic digit (code point 0x663) is not an allowed SemVer 2.0.0
prerelease label character, so the claim requires is_semantic to reject
this string, yet the regex accepts it because its class \d is
Unicode-aware; likewise a fully non-ASCII-digit core is accepted. -/
theorem c6_unicode_digit_counterexample :
    is_semantic ("0.1.1-٣") = true ∧
    specLabelChar '٣' = false ∧
    is_semantic ("١.٢.٣") = true ∧
    ("١.٢.٣").data.all Char.isDigit = false := by
  decide

/-- C6 witness: the theorem applied at a concrete input: the acceptance of
a plain ASCII semantic version follows from its spec-grammar decomposition
through the theorem. -/
theorem c6_grammar_witness : is_semantic ("1.2.3") = true := by
  apply (c6_is_semantic_grammar ("1.2.3")).1
  refine ⟨['1'], ['2'], ['3'], none, none, by decide, by decide, by decide, ?_, ?_, by decide⟩
  · intro ps h; cases h
  · intro ps h; cases h

end UPM
